import Mathlib

/-!
# Shallow embedding of the `wim-parser` crate (src/lib.rs)

Strings handled by the Rust code are modelled as `List Char`.  All the
scanning the crate performs (`str::find`, slicing, `contains`) uses ASCII
patterns, and Rust byte indices of such matches always fall on character
boundaries, so the character-level model is faithful: every slice taken by
the source corresponds exactly to a `drop`/`take` at character indices.

Machine integers (`u8`/`u16`/`u32`/`u64`) are modelled as `Nat` together
with explicit range conditions (`< 2^width`) where overflow matters.
Raw bytes are `Nat` values (< 256 where relevant).
-/

deriving instance DecidableEq for Except

namespace Wim

/-- Rust `str::find(pattern)`: index of the first occurrence of `pat` as a
contiguous substring, `none` if it does not occur. -/
def findSub (pat : List Char) : List Char → Option Nat
  | [] => if pat.isPrefixOf ([] : List Char) then some 0 else none
  | c :: t => if pat.isPrefixOf (c :: t) then some 0 else (findSub pat t).map (· + 1)

/-- Rust `str::contains(pattern)`. -/
def containsStr (hay pat : List Char) : Bool :=
  (findSub pat hay).isSome

/-- The set of characters Rust's `char::is_whitespace` accepts
(Unicode `White_Space`). -/
def rustWhitespace : List Char :=
  ['\t', '\n', Char.ofNat 0x0B, Char.ofNat 0x0C, '\r', ' ',
   Char.ofNat 0x85, Char.ofNat 0xA0, Char.ofNat 0x1680,
   Char.ofNat 0x2000, Char.ofNat 0x2001, Char.ofNat 0x2002, Char.ofNat 0x2003,
   Char.ofNat 0x2004, Char.ofNat 0x2005, Char.ofNat 0x2006, Char.ofNat 0x2007,
   Char.ofNat 0x2008, Char.ofNat 0x2009, Char.ofNat 0x200A,
   Char.ofNat 0x2028, Char.ofNat 0x2029, Char.ofNat 0x202F,
   Char.ofNat 0x205F, Char.ofNat 0x3000]

def isRustWhitespace (c : Char) : Bool :=
  rustWhitespace.contains c

/-- Rust `str::trim`. -/
def rustTrim (s : List Char) : List Char :=
  ((s.dropWhile isRustWhitespace).reverse.dropWhile isRustWhitespace).reverse

/-- Lowercasing as used by the source (`str::to_lowercase`).  Modelled with
ASCII case folding; the full Unicode folding differs only on characters that
cannot contribute to any of the ASCII-only patterns the crate scans for. -/
def toLowerStr (s : List Char) : List Char :=
  s.map Char.toLower

def digitToNat? (c : Char) : Option Nat :=
  if '0' ≤ c ∧ c ≤ '9' then some (c.toNat - '0'.toNat) else none

def digitsToNatAux : Nat → List Char → Option Nat
  | acc, [] => some acc
  | acc, c :: t =>
    match digitToNat? c with
    | some d => digitsToNatAux (acc * 10 + d) t
    | none => none

/-- Value of a non-empty all-digit string, `none` otherwise. -/
def digitsToNat? : List Char → Option Nat
  | [] => none
  | c :: t => digitsToNatAux 0 (c :: t)

/-- Rust `str::parse::<uN>()` (an optional leading `+`, then at least one
decimal digit, rejecting values outside the target width `bound = 2^N`). -/
def parseUnsigned (bound : Nat) (s : List Char) : Option Nat :=
  let digits := match s with
    | '+' :: t => t
    | t => t
  match digitsToNat? digits with
  | some n => if n < bound then some n else none
  | none => none

/-- The closure `extract_tag_value` in `parse_single_image_xml` /
`parse_arch_from_xml`: first occurrence of `<tag>` and of `</tag>` anywhere
in the fragment; the trimmed text strictly between them, if the value start
precedes the close tag. -/
def extract_tag_value (xml tag : List Char) : Option (List Char) :=
  let startTag := '<' :: (tag ++ ['>'])
  let endTag := '<' :: ('/' :: (tag ++ ['>']))
  match findSub startTag xml with
  | none => none
  | some s =>
    match findSub endTag xml with
    | none => none
    | some e =>
      let valueStart := s + startTag.length
      if valueStart < e then
        some (rustTrim ((xml.drop valueStart).take (e - valueStart)))
      else none

/-- Error taxonomy of the crate (`anyhow` errors, classified as in the
spec's §7: `IoError` / `FormatError` / `DecodeError`). Each constructor is
one distinct error site of the source. -/
inductive WimError where
  | ioShortRead
  | badSignature
  | noXmlData
  | xmlTooShort
  | invalidBom
  | oddUtf16Len
  | utf16DecodeFailed
deriving DecidableEq, Repr

def WimError.isFormatError : WimError → Bool
  | .badSignature | .noXmlData | .xmlTooShort | .invalidBom | .oddUtf16Len => true
  | _ => false

/-- `ImageInfo` of the source.  `u32`/`u64` fields are `Nat`s. -/
structure ImageInfo where
  index : Nat
  name : List Char
  description : List Char
  dir_count : Nat
  file_count : Nat
  total_bytes : Nat
  creation_time : Option Nat
  last_modification_time : Option Nat
  version : Option (List Char)
  architecture : Option (List Char)
deriving DecidableEq, Repr

/-- `parse_arch_from_xml`: the ARCH tag value mapped through the fixed
table, unknown values and a missing tag both giving `none`. -/
def parse_arch_from_xml (image_xml : List Char) : Option (List Char) :=
  match extract_tag_value image_xml ("ARCH".toList) with
  | some archValue =>
    if archValue = "0".toList then some ("x86".toList)
    else if archValue = "9".toList then some ("x64".toList)
    else if archValue = "5".toList then some ("ARM".toList)
    else if archValue = "12".toList then some ("ARM64".toList)
    else none
  | none => none

/-- `extract_version_and_arch`: version and architecture heuristics over
`format!("{name} {description}").to_lowercase()`. -/
def extract_version_and_arch (name description : List Char) :
    Option (List Char) × Option (List Char) :=
  let combined_text := toLowerStr (name ++ (' ' :: description))
  let version :=
    if containsStr combined_text ("windows 11".toList) then some ("Windows 11".toList)
    else if containsStr combined_text ("windows 10".toList) then some ("Windows 10".toList)
    else if containsStr combined_text ("windows server 2022".toList) then
      some ("Windows Server 2022".toList)
    else if containsStr combined_text ("windows server 2019".toList) then
      some ("Windows Server 2019".toList)
    else if containsStr combined_text ("windows server".toList) then
      some ("Windows Server".toList)
    else if containsStr combined_text ("windows".toList) then some ("Windows".toList)
    else none
  let architecture :=
    if containsStr combined_text ("x64".toList) || containsStr combined_text ("amd64".toList) then
      some ("x64".toList)
    else if containsStr combined_text ("x86".toList) then some ("x86".toList)
    else if containsStr combined_text ("arm64".toList) then some ("ARM64".toList)
    else none
  (version, architecture)

/-- The `INDEX="..."` attribute extraction in `parse_single_image_xml`:
locate `INDEX="`, then the next `"`, parse the span as `u32`, defaulting
to `0` on any failure. -/
def parse_image_index (image_xml : List Char) : Nat :=
  match findSub ("INDEX=\"".toList) image_xml with
  | some indexStart =>
    let valueStart := indexStart + 7
    match findSub ['\"'] (image_xml.drop valueStart) with
    | some indexEnd =>
      (parseUnsigned (2 ^ 32) ((image_xml.drop valueStart).take indexEnd)).getD 0
    | none => 0
  | none => 0

/-- `parse_single_image_xml`.  The Rust function returns `Result` but every
path produces `Ok`; the embedding keeps the fallible signature. -/
def parse_single_image_xml (image_xml : List Char) : Except WimError ImageInfo :=
  let index := parse_image_index image_xml
  let name := (extract_tag_value image_xml ("DISPLAYNAME".toList)).getD
    ("Image ".toList ++ (toString index).toList)
  let description := (extract_tag_value image_xml ("DISPLAYDESCRIPTION".toList)).getD
    ("Unknown".toList)
  let dir_count :=
    ((extract_tag_value image_xml ("DIRCOUNT".toList)).bind (parseUnsigned (2 ^ 32))).getD 0
  let file_count :=
    ((extract_tag_value image_xml ("FILECOUNT".toList)).bind (parseUnsigned (2 ^ 32))).getD 0
  let total_bytes :=
    ((extract_tag_value image_xml ("TOTALBYTES".toList)).bind (parseUnsigned (2 ^ 64))).getD 0
  let arch_from_xml := parse_arch_from_xml image_xml
  let va := extract_version_and_arch name description
  let architecture := match arch_from_xml with
    | some a => some a
    | none => va.2
  .ok
    { index := index
      name := name
      description := description
      dir_count := dir_count
      file_count := file_count
      total_bytes := total_bytes
      creation_time := none
      last_modification_time := none
      version := va.1
      architecture := architecture }

def imageOpenTag : List Char := "<IMAGE".toList

def imageCloseTag : List Char := "</IMAGE>".toList

theorem findSub_some_le {pat l : List Char} {i : Nat} (h : findSub pat l = some i) :
    i + pat.length ≤ l.length := by
  induction l generalizing i with
  | nil =>
    by_cases hp : pat.isPrefixOf ([] : List Char)
    · simp only [findSub, if_pos hp] at h
      cases h
      have := List.isPrefixOf_iff_prefix.mp hp
      simpa using this.length_le
    · simp only [findSub, if_neg hp] at h
      cases h
  | cons c t ih =>
    by_cases hp : pat.isPrefixOf (c :: t)
    · simp only [findSub, if_pos hp] at h
      cases h
      have := List.isPrefixOf_iff_prefix.mp hp
      simpa using this.length_le
    · simp only [findSub, if_neg hp, Option.map_eq_some'] at h
      obtain ⟨j, hj, rfl⟩ := h
      have := ih hj
      simp only [List.length_cons]
      omega

theorem findSub_some_prefix {pat l : List Char} {i : Nat} (h : findSub pat l = some i) :
    pat.isPrefixOf (l.drop i) := by
  induction l generalizing i with
  | nil =>
    by_cases hp : pat.isPrefixOf ([] : List Char)
    · simp only [findSub, if_pos hp] at h
      cases h
      simpa using hp
    · simp only [findSub, if_neg hp] at h
      cases h
  | cons c t ih =>
    by_cases hp : pat.isPrefixOf (c :: t)
    · simp only [findSub, if_pos hp] at h
      cases h
      simpa using hp
    · simp only [findSub, if_neg hp, Option.map_eq_some'] at h
      obtain ⟨j, hj, rfl⟩ := h
      simpa using ih hj

/-- The cursor loop of `parse_xml_images`, fragment part: repeatedly find
`<IMAGE`, then `</IMAGE>` from that position; the span through the end of
the closing tag (8 characters long) is one fragment, and the cursor
advances past it.  The loop breaks when either search fails. -/
def scan_image_fragments (xml : List Char) : List (List Char) :=
  match findSub imageOpenTag xml with
  | none => []
  | some i =>
    match h2 : findSub imageCloseTag (xml.drop i) with
    | none => []
    | some j =>
      ((xml.drop i).take (j + 8)) :: scan_image_fragments ((xml.drop i).drop (j + 8))
termination_by xml.length
decreasing_by
  have hle := findSub_some_le h2
  have hcl : imageCloseTag.length = 8 := by decide
  rw [hcl] at hle
  simp only [List.length_drop] at *
  omega

/-- The cursor loop of `parse_xml_images`, with the accumulator: a fragment
whose extraction fails is dropped, all others are pushed in scan order. -/
def parse_images_loop (acc : List ImageInfo) (xml : List Char) : List ImageInfo :=
  match findSub imageOpenTag xml with
  | none => acc
  | some i =>
    match h2 : findSub imageCloseTag (xml.drop i) with
    | none => acc
    | some j =>
      let image_xml := (xml.drop i).take (j + 8)
      let acc' := match parse_single_image_xml image_xml with
        | .ok info => acc ++ [info]
        | .error _ => acc
      parse_images_loop acc' ((xml.drop i).drop (j + 8))
termination_by xml.length
decreasing_by
  have hle := findSub_some_le h2
  have hcl : imageCloseTag.length = 8 := by decide
  rw [hcl] at hle
  simp only [List.length_drop] at *
  omega

/-- `parse_xml_images`: `self.images.clear()` followed by the cursor loop;
the previous image list is discarded wholesale. -/
def parse_xml_images (prev : List ImageInfo) (xml_content : List Char) : List ImageInfo :=
  let _ := prev
  parse_images_loop [] xml_content

/-- `chunks_exact(2)` + `u16::from_le_bytes`: pair up bytes little-endian. -/
def leU16Pairs : List Nat → List Nat
  | a :: b :: rest => (a + 256 * b) :: leU16Pairs rest
  | _ => []

/-- `String::from_utf16`: decode a code-unit sequence, failing on any
unpaired surrogate.  High surrogates are `0xD800-0xDBFF`, low surrogates
`0xDC00-0xDFFF`. -/
def utf16Decode? : List Nat → Option (List Char)
  | [] => some []
  | u :: rest =>
    if u < 0xD800 ∨ 0xE000 ≤ u then
      (utf16Decode? rest).map (fun cs => Char.ofNat u :: cs)
    else if u ≤ 0xDBFF then
      match rest with
      | [] => none
      | v :: rest2 =>
        if 0xDC00 ≤ v ∧ v ≤ 0xDFFF then
          (utf16Decode? rest2).map
            (fun cs => Char.ofNat (0x10000 + (u - 0xD800) * 0x400 + (v - 0xDC00)) :: cs)
        else none
    else none

/-- The decoding half of `parse_xml_data` (spec §4.4, `Utf16XmlDecoder`):
length check, BOM check, even-length check, UTF-16 decode, in that order;
on success the text after the 2-byte BOM. -/
def decode_utf16_xml (xml_buffer : List Nat) : Except WimError (List Char) :=
  if xml_buffer.length < 2 then .error .xmlTooShort
  else if ¬(xml_buffer.getD 0 0 = 0xFF ∧ xml_buffer.getD 1 0 = 0xFE) then .error .invalidBom
  else
    let xml_utf16_data := xml_buffer.drop 2
    if xml_utf16_data.length % 2 ≠ 0 then .error .oddUtf16Len
    else
      match utf16Decode? (leU16Pairs xml_utf16_data) with
      | none => .error .utf16DecodeFailed
      | some xml_string => .ok xml_string

/-- `parse_xml_data`: decode the buffer, then rebuild the image list from
the decoded text (the two halves of the source function). -/
def parse_xml_data (prev : List ImageInfo) (xml_buffer : List Nat) :
    Except WimError (List ImageInfo) :=
  match decode_utf16_xml xml_buffer with
  | .error e => .error e
  | .ok xml_string => .ok (parse_xml_images prev xml_string)

/-- `FileResourceEntry` (`_RESHDR_DISK_SHORT`): 7-byte size, 1-byte flags,
8-byte offset, 8-byte original size. -/
structure FileResourceEntry where
  size : Nat
  flags : Nat
  offset : Nat
  original_size : Nat
deriving DecidableEq, Repr

/-- `WimHeader` (`WIMHEADER_V1_PACKED`), 204 bytes on disk. -/
structure WimHeader where
  signature : List Nat
  header_size : Nat
  format_version : Nat
  file_flags : Nat
  compressed_size : Nat
  guid : List Nat
  segment_number : Nat
  total_segments : Nat
  image_count : Nat
  offset_table_resource : FileResourceEntry
  xml_data_resource : FileResourceEntry
  boot_metadata_resource : FileResourceEntry
  bootable_image_index : Nat
  integrity_resource : FileResourceEntry
deriving DecidableEq, Repr

/-- Little-endian value of a byte list. -/
def bytesToNatLE : List Nat → Nat
  | [] => 0
  | b :: t => b + 256 * bytesToNatLE t

/-- `buffer[off..off+n]`. -/
def read_bytes (buffer : List Nat) (off n : Nat) : List Nat :=
  (buffer.drop off).take n

def read_u16_le (buffer : List Nat) (off : Nat) : Nat :=
  bytesToNatLE (read_bytes buffer off 2)

def read_u32_le (buffer : List Nat) (off : Nat) : Nat :=
  bytesToNatLE (read_bytes buffer off 4)

def read_u64_le (buffer : List Nat) (off : Nat) : Nat :=
  bytesToNatLE (read_bytes buffer off 8)

/-- The `parse_resource_entry` closure of `parse_header_buffer`: size is the
7 bytes at `off` zero-extended to 8 bytes before little-endian decoding,
byte `off+7` is the flags byte. -/
def parse_resource_entry (buffer : List Nat) (off : Nat) : FileResourceEntry :=
  { size := bytesToNatLE (read_bytes buffer off 7 ++ [0])
    flags := (buffer.drop (off + 7)).headD 0
    offset := read_u64_le buffer (off + 8)
    original_size := read_u64_le buffer (off + 16) }

/-- `parse_header_buffer`: field extraction at the fixed offsets.  (In the
source this returns `Result` but never fails; validation happens in
`read_header`.) -/
def parse_header_buffer (buffer : List Nat) : WimHeader :=
  { signature := read_bytes buffer 0 8
    header_size := read_u32_le buffer 8
    format_version := read_u32_le buffer 12
    file_flags := read_u32_le buffer 16
    compressed_size := read_u32_le buffer 20
    guid := read_bytes buffer 24 16
    segment_number := read_u16_le buffer 40
    total_segments := read_u16_le buffer 42
    image_count := read_u32_le buffer 44
    offset_table_resource := parse_resource_entry buffer 48
    xml_data_resource := parse_resource_entry buffer 72
    boot_metadata_resource := parse_resource_entry buffer 96
    bootable_image_index := read_u32_le buffer 120
    integrity_resource := parse_resource_entry buffer 124 }

/-- The magic signature `b"MSWIM\x00\x00\x00"`. -/
def wimMagic : List Nat := [0x4D, 0x53, 0x57, 0x49, 0x4D, 0, 0, 0]

/-- The mutable part of the `WimParser` session: the cached header and the
image list. -/
structure SessionState where
  header : Option WimHeader
  images : List ImageInfo
deriving DecidableEq, Repr

def get_header (p : SessionState) : Option WimHeader :=
  p.header

def get_images (p : SessionState) : List ImageInfo :=
  p.images

/-- `read_header`: return the cached header if present; otherwise read the
first 204 bytes of the file (an `IoError` if fewer are available), decode
them, validate the signature and cache the result.  The session state is
returned alongside the outcome; on failure it is unchanged. -/
def read_header (file : List Nat) (p : SessionState) :
    Except WimError WimHeader × SessionState :=
  match p.header with
  | some h => (.ok h, p)
  | none =>
    if file.length < 204 then (.error .ioShortRead, p)
    else
      let header := parse_header_buffer (file.take 204)
      if header.signature = wimMagic then
        (.ok header, { p with header := some header })
      else (.error .badSignature, p)

/-- `read_exact` of `n` bytes at absolute offset `off`: fails when the file
does not hold that many bytes. -/
def slice_file (file : List Nat) (off n : Nat) : Option (List Nat) :=
  if off + n ≤ file.length then some ((file.drop off).take n) else none

/-- `read_xml_data`.  Ensures the header is decoded, fails when the XML
resource descriptor's size is zero, otherwise seeks to its offset, reads
`size` bytes and parses them, replacing the image list.  The third
component records the resource reads `(offset, size)` that were issued
against the file, so that "fails before any read" is expressible. -/
def read_xml_data (file : List Nat) (p : SessionState) :
    Except WimError Unit × SessionState × List (Nat × Nat) :=
  match read_header file p with
  | (.error e, p1) => (.error e, p1, [])
  | (.ok header, p1) =>
    if header.xml_data_resource.size = 0 then (.error .noXmlData, p1, [])
    else
      let off := header.xml_data_resource.offset
      let sz := header.xml_data_resource.size
      match slice_file file off sz with
      | none => (.error .ioShortRead, p1, [(off, sz)])
      | some xml_buffer =>
        match parse_xml_data p1.images xml_buffer with
        | .error e => (.error e, p1, [(off, sz)])
        | .ok imgs => (.ok (), { p1 with images := imgs }, [(off, sz)])

/-- Rust `Iterator::max_by_key`: among equally maximal elements the LAST
one in iteration order is returned. -/
def maxByKeyLast (f : α → Nat) : List α → Option α
  | [] => none
  | x :: xs => some (xs.foldl (fun best y => if f best ≤ f y then y else best) x)

/-- Multiplicity of version label `v` in the image list (the count the
`HashMap` in `get_primary_version` accumulates for key `v`). -/
def count_version (images : List ImageInfo) (v : List Char) : Nat :=
  (images.filter (fun img => img.version = some v)).length

/-- Multiplicity of architecture label `a` in the image list. -/
def count_arch (images : List ImageInfo) (a : List Char) : Nat :=
  (images.filter (fun img => img.architecture = some a)).length

/-- The distinct version labels present (the key set of the `HashMap` in
`get_primary_version`), listed in first-occurrence order.  The map itself
iterates these keys in an unspecified, seed-dependent order; session
operations therefore take that order as an explicit parameter, constrained
to be a permutation of this key set. -/
def version_keys (images : List ImageInfo) : List (List Char) :=
  images.foldl
    (fun acc img => match img.version with
      | some v => if v ∈ acc then acc else acc ++ [v]
      | none => acc) []

/-- The distinct architecture labels present (key set of the `HashMap` in
`get_primary_architecture`). -/
def arch_keys (images : List ImageInfo) : List (List Char) :=
  images.foldl
    (fun acc img => match img.architecture with
      | some a => if a ∈ acc then acc else acc ++ [a]
      | none => acc) []

/-- `get_primary_version`.  `ordv` is the iteration order in which the
counting `HashMap` yields its keys (any permutation of
`version_keys images`, depending on the map's random hash seed). -/
def get_primary_version (images : List ImageInfo) (ordv : List (List Char)) :
    Option (List Char) :=
  if images.isEmpty then none
  else maxByKeyLast (count_version images) ordv

/-- `get_primary_architecture`, with the map iteration order explicit. -/
def get_primary_architecture (images : List ImageInfo) (orda : List (List Char)) :
    Option (List Char) :=
  if images.isEmpty then none
  else maxByKeyLast (count_arch images) orda

/-- The edition-collection loop body in `get_windows_info`: an
`if`/`else if` chain, so each image appends at most one label — the first
of Pro, Home, Enterprise, Education whose lowercase substring occurs in the
image's lowercased name and which is not already collected. -/
def edition_step (editions : List (List Char)) (img : ImageInfo) : List (List Char) :=
  let name_lower := toLowerStr img.name
  if containsStr name_lower ("pro".toList) ∧ ("Pro".toList) ∉ editions then
    editions ++ [("Pro".toList)]
  else if containsStr name_lower ("home".toList) ∧ ("Home".toList) ∉ editions then
    editions ++ [("Home".toList)]
  else if containsStr name_lower ("enterprise".toList) ∧ ("Enterprise".toList) ∉ editions then
    editions ++ [("Enterprise".toList)]
  else if containsStr name_lower ("education".toList) ∧ ("Education".toList) ∉ editions then
    editions ++ [("Education".toList)]
  else editions

def collect_editions (images : List ImageInfo) : List (List Char) :=
  images.foldl edition_step []

/-- `WindowsInfo`. -/
structure WindowsInfo where
  version : List Char
  architecture : List Char
  editions : List (List Char)
  image_count : Nat
  total_size : Nat
deriving DecidableEq, Repr

/-- `get_windows_info`, with the two counting-map iteration orders
explicit. -/
def get_windows_info (images : List ImageInfo) (ordv orda : List (List Char)) :
    Option WindowsInfo :=
  match get_primary_version images ordv with
  | none => none
  | some primary_version =>
    match get_primary_architecture images orda with
    | none => none
    | some primary_arch =>
      if ¬ containsStr (toLowerStr primary_version) ("windows".toList) then none
      else
        some
          { version := primary_version
            architecture := primary_arch
            editions := collect_editions images
            image_count := images.length
            total_size := (images.map (fun img => img.total_bytes)).sum }

/-- Modelled from the spec: the repository has no header encoder (it only
decodes); §4.1/§6 fix the 204-byte layout, "all integers little-endian".
Little-endian bytes of a 16-bit value. -/
def encode_u16 (n : Nat) : List Nat :=
  [n % 256, n / 256 % 256]

/-- Modelled from the spec: little-endian bytes of a 32-bit value. -/
def encode_u32 (n : Nat) : List Nat :=
  [n % 256, n / 256 % 256, n / 65536 % 256, n / 16777216 % 256]

/-- Modelled from the spec: little-endian bytes of a 64-bit value. -/
def encode_u64 (n : Nat) : List Nat :=
  [n % 256, n / 256 % 256, n / 65536 % 256, n / 16777216 % 256,
   n / 4294967296 % 256, n / 1099511627776 % 256,
   n / 281474976710656 % 256, n / 72057594037927936 % 256]

/-- Modelled from the spec: the 7-byte size field of a resource descriptor
(§4.2/§6, max value `2^56 - 1`), little-endian. -/
def encode_size7 (n : Nat) : List Nat :=
  [n % 256, n / 256 % 256, n / 65536 % 256, n / 16777216 % 256,
   n / 4294967296 % 256, n / 1099511627776 % 256, n / 281474976710656 % 256]

/-- Modelled from the spec (§6): a 24-byte resource descriptor — 7-byte
size, 1-byte flags, 8-byte offset, 8-byte original size. -/
def encode_resource_entry (e : FileResourceEntry) : List Nat :=
  encode_size7 e.size ++ ([e.flags % 256] ++ (encode_u64 e.offset ++ encode_u64 e.original_size))

/-- Modelled from the spec (§4.1): the 204-byte header layout at the fixed
offsets — signature 0:8, header_size 8:4, format_version 12:4,
file_flags 16:4, compressed_size 20:4, guid 24:16, segment_number 40:2,
total_segments 42:2, image_count 44:4, offset_table_resource 48:24,
xml_data_resource 72:24, boot_metadata_resource 96:24,
bootable_image_index 120:4, integrity_resource 124:24; the tail up to 204
bytes is zero padding. -/
def encode_header (h : WimHeader) : List Nat :=
  h.signature ++
    (encode_u32 h.header_size ++
      (encode_u32 h.format_version ++
        (encode_u32 h.file_flags ++
          (encode_u32 h.compressed_size ++
            (h.guid ++
              (encode_u16 h.segment_number ++
                (encode_u16 h.total_segments ++
                  (encode_u32 h.image_count ++
                    (encode_resource_entry h.offset_table_resource ++
                      (encode_resource_entry h.xml_data_resource ++
                        (encode_resource_entry h.boot_metadata_resource ++
                          (encode_u32 h.bootable_image_index ++
                            (encode_resource_entry h.integrity_resource ++
                              List.replicate 56 0)))))))))))))

/-- Range conditions carried by the Rust field types (`[u8; 8]`, `u32`,
`[u8; 16]`, `u16`, `u64`), plus the claim's bound on the 7-byte descriptor
sizes. -/
def FileResourceEntry.wellFormed (e : FileResourceEntry) : Prop :=
  e.size < 2 ^ 56 ∧ e.flags < 2 ^ 8 ∧ e.offset < 2 ^ 64 ∧ e.original_size < 2 ^ 64

instance (e : FileResourceEntry) : Decidable e.wellFormed := by
  unfold FileResourceEntry.wellFormed; infer_instance

def WimHeader.wellFormed (h : WimHeader) : Prop :=
  h.signature.length = 8 ∧ (∀ b ∈ h.signature, b < 256) ∧
  h.header_size < 2 ^ 32 ∧ h.format_version < 2 ^ 32 ∧
  h.file_flags < 2 ^ 32 ∧ h.compressed_size < 2 ^ 32 ∧
  h.guid.length = 16 ∧ (∀ b ∈ h.guid, b < 256) ∧
  h.segment_number < 2 ^ 16 ∧ h.total_segments < 2 ^ 16 ∧
  h.image_count < 2 ^ 32 ∧
  h.offset_table_resource.wellFormed ∧ h.xml_data_resource.wellFormed ∧
  h.boot_metadata_resource.wellFormed ∧
  h.bootable_image_index < 2 ^ 32 ∧ h.integrity_resource.wellFormed

instance (h : WimHeader) : Decidable h.wellFormed := by
  unfold WimHeader.wellFormed; infer_instance

/-- The version table exactly as the spec states it (§4.7): fixed
first-match priority order over the (lowercased) scanned text. -/
def version_scan (t : List Char) : Option (List Char) :=
  if containsStr t ("windows 11".toList) then some ("Windows 11".toList)
  else if containsStr t ("windows 10".toList) then some ("Windows 10".toList)
  else if containsStr t ("windows server 2022".toList) then some ("Windows Server 2022".toList)
  else if containsStr t ("windows server 2019".toList) then some ("Windows Server 2019".toList)
  else if containsStr t ("windows server".toList) then some ("Windows Server".toList)
  else if containsStr t ("windows".toList) then some ("Windows".toList)
  else none

/-- The architecture fallback table exactly as the spec states it (§4.6). -/
def arch_scan (t : List Char) : Option (List Char) :=
  if containsStr t ("x64".toList) || containsStr t ("amd64".toList) then some ("x64".toList)
  else if containsStr t ("x86".toList) then some ("x86".toList)
  else if containsStr t ("arm64".toList) then some ("ARM64".toList)
  else none

/-- Unwrap a per-fragment extraction result (used to state concrete
instances; the error branch is unreachable, see the totality claim). -/
def imageOrDefault (r : Except WimError ImageInfo) : ImageInfo :=
  match r with
  | .ok info => info
  | .error _ => ⟨0, [], [], 0, 0, 0, none, none, none, none⟩

/-- A fragment whose ARCH tag says x64 while its name says x86. -/
def fragArchPriority : List Char :=
  ("<IMAGE INDEX=\"1\"><WINDOWS><ARCH>9</ARCH></WINDOWS>" ++
    "<DISPLAYNAME>Windows 11 Pro x86</DISPLAYNAME></IMAGE>").toList

/-!  ## Claim theorems -/

/-- C3: for every name and description, the version label is decided by a
case-insensitive substring scan over the combined name/description text
(the source joins the two with a single space) in the fixed first-match
order windows 11, windows 10, windows server 2022, windows server 2019,
windows server, windows — and in particular the name
"Windows Server 2019 Pro" yields "Windows Server 2019", not
"Windows Server". -/
theorem version_classifier_spec :
    (∀ name description : List Char,
      (extract_version_and_arch name description).1 =
        version_scan (toLowerStr (name ++ (' ' :: description)))) ∧
    (extract_version_and_arch ("Windows Server 2019 Pro".toList) []).1 =
      some ("Windows Server 2019".toList) :=
  ⟨fun _ _ => rfl, by decide⟩

/-- C1: per fragment, an ARCH tag value of "0"/"9"/"5"/"12" forces the
architecture x86/x64/ARM/ARM64 regardless of name and description; when
the tag is absent or carries any other value, the architecture is the
case-insensitive heuristic over the combined name/description text
(x64/amd64, else x86, else arm64, else absent). -/
theorem arch_resolution_spec :
    ∀ image_xml info, parse_single_image_xml image_xml = .ok info →
      (extract_tag_value image_xml ("ARCH".toList) = some ("0".toList) →
        info.architecture = some ("x86".toList)) ∧
      (extract_tag_value image_xml ("ARCH".toList) = some ("9".toList) →
        info.architecture = some ("x64".toList)) ∧
      (extract_tag_value image_xml ("ARCH".toList) = some ("5".toList) →
        info.architecture = some ("ARM".toList)) ∧
      (extract_tag_value image_xml ("ARCH".toList) = some ("12".toList) →
        info.architecture = some ("ARM64".toList)) ∧
      (parse_arch_from_xml image_xml = none →
        info.architecture = arch_scan (toLowerStr (info.name ++ (' ' :: info.description)))) ∧
      (parse_arch_from_xml image_xml = none ↔
        (extract_tag_value image_xml ("ARCH".toList) = none ∨
          ∃ v, extract_tag_value image_xml ("ARCH".toList) = some v ∧
            v ∉ [("0".toList), ("9".toList), ("5".toList), ("12".toList)])) := by
  intro image_xml info hok
  have harch : info.architecture =
      (match parse_arch_from_xml image_xml with
       | some a => some a
       | none => (extract_version_and_arch info.name info.description).2) := by
    simp only [parse_single_image_xml, Except.ok.injEq] at hok
    subst hok
    rfl
  refine ⟨?_, ?_, ?_, ?_, ?_, ?_⟩
  · intro h
    have hp : parse_arch_from_xml image_xml = some ("x86".toList) := by
      unfold parse_arch_from_xml
      rw [h]
      decide
    rw [harch, hp]
  · intro h
    have hp : parse_arch_from_xml image_xml = some ("x64".toList) := by
      unfold parse_arch_from_xml
      rw [h]
      decide
    rw [harch, hp]
  · intro h
    have hp : parse_arch_from_xml image_xml = some ("ARM".toList) := by
      unfold parse_arch_from_xml
      rw [h]
      decide
    rw [harch, hp]
  · intro h
    have hp : parse_arch_from_xml image_xml = some ("ARM64".toList) := by
      unfold parse_arch_from_xml
      rw [h]
      decide
    rw [harch, hp]
  · intro h
    rw [harch, h]
    rfl
  · constructor
    · intro h
      cases hx : extract_tag_value image_xml ("ARCH".toList) with
      | none => exact Or.inl rfl
      | some v =>
        refine Or.inr ⟨v, rfl, ?_⟩
        unfold parse_arch_from_xml at h
        rw [hx] at h
        intro hv
        simp only [List.mem_cons, List.not_mem_nil, or_false] at hv
        rcases hv with rfl | rfl | rfl | rfl <;> simp at h
    · intro h
      unfold parse_arch_from_xml
      rcases h with h | ⟨v, hv, hmem⟩
      · rw [h]
      · rw [hv]
        have n0 : ¬ v = ['0'] := fun hh => hmem (by rw [hh]; simp)
        have n9 : ¬ v = ['9'] := fun hh => hmem (by rw [hh]; simp)
        have n5 : ¬ v = ['5'] := fun hh => hmem (by rw [hh]; simp)
        have n12 : ¬ v = ['1', '2'] := fun hh => hmem (by rw [hh]; simp)
        simp [n0, n9, n5, n12]

set_option maxRecDepth 100000 in
/-- Witness for C1: the fragment with `ARCH = 9` and an `x86` name resolves
to x64 (tag precedence over the heuristic). -/
theorem arch_resolution_spec_witness :
    (imageOrDefault (parse_single_image_xml fragArchPriority)).architecture =
      some ("x64".toList) := by
  have h := arch_resolution_spec fragArchPriority
    (imageOrDefault (parse_single_image_xml fragArchPriority)) (by decide)
  exact h.2.1 (by decide)

theorem scan_eq_of_no_open {xml : List Char} (h : findSub imageOpenTag xml = none) :
    scan_image_fragments xml = [] := by
  unfold scan_image_fragments
  rw [h]

theorem scan_eq_of_no_close {xml : List Char} {i : Nat}
    (h1 : findSub imageOpenTag xml = some i)
    (h2 : findSub imageCloseTag (xml.drop i) = none) :
    scan_image_fragments xml = [] := by
  unfold scan_image_fragments
  rw [h1]
  split
  · rename_i heq
    cases heq
  · rename_i i' heq
    injection heq with hii
    subst hii
    split
    · rfl
    · rename_i j' hclose
      rw [h2] at hclose
      cases hclose

theorem scan_eq_step {xml : List Char} {i j : Nat}
    (h1 : findSub imageOpenTag xml = some i)
    (h2 : findSub imageCloseTag (xml.drop i) = some j) :
    scan_image_fragments xml =
      ((xml.drop i).take (j + 8)) :: scan_image_fragments ((xml.drop i).drop (j + 8)) := by
  conv_lhs => unfold scan_image_fragments
  rw [h1]
  split
  · rename_i heq
    cases heq
  · rename_i i' heq
    injection heq with hii
    subst hii
    split
    · rename_i hclose
      rw [h2] at hclose
      cases hclose
    · rename_i j' hclose
      rw [h2] at hclose
      injection hclose with hjj
      subst hjj
      rfl

theorem loop_eq_of_no_open {acc : List ImageInfo} {xml : List Char}
    (h : findSub imageOpenTag xml = none) :
    parse_images_loop acc xml = acc := by
  unfold parse_images_loop
  rw [h]

theorem loop_eq_of_no_close {acc : List ImageInfo} {xml : List Char} {i : Nat}
    (h1 : findSub imageOpenTag xml = some i)
    (h2 : findSub imageCloseTag (xml.drop i) = none) :
    parse_images_loop acc xml = acc := by
  unfold parse_images_loop
  rw [h1]
  split
  · rename_i heq
    cases heq
  · rename_i i' heq
    injection heq with hii
    subst hii
    split
    · rfl
    · rename_i j' hclose
      rw [h2] at hclose
      cases hclose

theorem loop_eq_step {acc : List ImageInfo} {xml : List Char} {i j : Nat}
    (h1 : findSub imageOpenTag xml = some i)
    (h2 : findSub imageCloseTag (xml.drop i) = some j) :
    parse_images_loop acc xml =
      parse_images_loop
        (match parse_single_image_xml ((xml.drop i).take (j + 8)) with
          | .ok info => acc ++ [info]
          | .error _ => acc)
        ((xml.drop i).drop (j + 8)) := by
  conv_lhs => unfold parse_images_loop
  rw [h1]
  split
  · rename_i heq
    cases heq
  · rename_i i' heq
    injection heq with hii
    subst hii
    split
    · rename_i hclose
      rw [h2] at hclose
      cases hclose
    · rename_i j' hclose
      rw [h2] at hclose
      injection hclose with hjj
      subst hjj
      rfl

/-- The accumulating loop is the fragment scan followed by the
drop-on-error filter. -/
theorem parse_images_loop_eq_scan :
    ∀ (n : Nat) (xml : List Char), xml.length ≤ n → ∀ acc,
      parse_images_loop acc xml =
        acc ++ (scan_image_fragments xml).filterMap
          (fun frag => (parse_single_image_xml frag).toOption) := by
  intro n
  induction n with
  | zero =>
    intro xml hlen acc
    have hx : xml = [] := List.length_eq_zero.mp (Nat.le_zero.mp hlen)
    subst hx
    have h1 : findSub imageOpenTag ([] : List Char) = none := by decide
    rw [loop_eq_of_no_open h1, scan_eq_of_no_open h1]
    simp
  | succ n ih =>
    intro xml hlen acc
    cases h1 : findSub imageOpenTag xml with
    | none =>
      rw [loop_eq_of_no_open h1, scan_eq_of_no_open h1]
      simp
    | some i =>
      cases h2 : findSub imageCloseTag (xml.drop i) with
      | none =>
        rw [loop_eq_of_no_close h1 h2, scan_eq_of_no_close h1 h2]
        simp
      | some j =>
        rw [loop_eq_step h1 h2, scan_eq_step h1 h2]
        have hrest : ((xml.drop i).drop (j + 8)).length ≤ n := by
          have hle := findSub_some_le h2
          have hcl : imageCloseTag.length = 8 := by decide
          rw [hcl] at hle
          simp only [List.length_drop] at *
          omega
        rw [ih _ hrest]
        cases hp : parse_single_image_xml ((xml.drop i).take (j + 8)) with
        | ok info => simp [List.filterMap_cons, hp, Except.toOption]
        | error e => simp [List.filterMap_cons, hp, Except.toOption]

/-- Field-level characterization of `parse_single_image_xml`. -/
theorem parse_single_fields {image_xml : List Char} {info : ImageInfo}
    (hok : parse_single_image_xml image_xml = .ok info) :
    info.index = parse_image_index image_xml ∧
    info.name = (extract_tag_value image_xml ("DISPLAYNAME".toList)).getD
      ("Image ".toList ++ (toString (parse_image_index image_xml)).toList) ∧
    info.description =
      (extract_tag_value image_xml ("DISPLAYDESCRIPTION".toList)).getD ("Unknown".toList) ∧
    info.dir_count =
      ((extract_tag_value image_xml ("DIRCOUNT".toList)).bind (parseUnsigned (2 ^ 32))).getD 0 ∧
    info.file_count =
      ((extract_tag_value image_xml ("FILECOUNT".toList)).bind (parseUnsigned (2 ^ 32))).getD 0 ∧
    info.total_bytes =
      ((extract_tag_value image_xml ("TOTALBYTES".toList)).bind (parseUnsigned (2 ^ 64))).getD 0 := by
  simp only [parse_single_image_xml, Except.ok.injEq] at hok
  subst hok
  exact ⟨rfl, rfl, rfl, rfl, rfl, rfl⟩

/-- C2: one XML parse pass rebuilds the image list from scratch — the
result is exactly the records extracted, in scan order, from the fragments
of the cursor scan, independent of the previously stored list — and the
cursor scan obeys the stated recurrence: no `<IMAGE` means no fragment; a
`<IMAGE` without a following `</IMAGE>` stops the scan; otherwise the span
through the end of the closing tag (8 characters) is a fragment and the
cursor advances past it. -/
theorem xml_parse_rebuilds_list :
    (∀ prev xml_content, parse_xml_images prev xml_content =
      (scan_image_fragments xml_content).filterMap
        (fun frag => (parse_single_image_xml frag).toOption)) ∧
    (∀ xml, findSub imageOpenTag xml = none → scan_image_fragments xml = []) ∧
    (∀ xml i, findSub imageOpenTag xml = some i →
      findSub imageCloseTag (xml.drop i) = none → scan_image_fragments xml = []) ∧
    (∀ xml i j, findSub imageOpenTag xml = some i →
      findSub imageCloseTag (xml.drop i) = some j →
      scan_image_fragments xml =
        ((xml.drop i).take (j + 8)) :: scan_image_fragments ((xml.drop i).drop (j + 8))) := by
  refine ⟨?_, ?_, ?_, ?_⟩
  · intro prev xml_content
    unfold parse_xml_images
    simpa using parse_images_loop_eq_scan xml_content.length xml_content le_rfl []
  · exact fun xml h => scan_eq_of_no_open h
  · exact fun xml i h1 h2 => scan_eq_of_no_close h1 h2
  · exact fun xml i j h1 h2 => scan_eq_step h1 h2

/-- A text holding two image elements, the first nine characters long up to
its closing tag. -/
def xmlTwoImages : List Char := "<IMAGE A></IMAGE><IMAGE B></IMAGE>".toList

set_option maxRecDepth 100000 in
/-- Witness for C2: one scan step on a concrete two-element text. -/
theorem xml_parse_rebuilds_list_witness :
    scan_image_fragments xmlTwoImages =
      ((xmlTwoImages.drop 0).take (9 + 8)) ::
        scan_image_fragments ((xmlTwoImages.drop 0).drop (9 + 8)) :=
  xml_parse_rebuilds_list.2.2.2 xmlTwoImages 0 9 (by decide) (by decide)

/-- C10: per-fragment extraction always succeeds — missing content falls
back to the defaults (index 0, name `Image {index}`, description
`Unknown`, counts and byte total 0) — so the drop-on-error branch of the
fragment loop never fires and the parsed list holds exactly one record per
scanned fragment. -/
theorem fragment_extraction_total :
    (∀ image_xml, (parse_single_image_xml image_xml).isOk = true) ∧
    (∀ prev xml_content,
      (parse_xml_images prev xml_content).length =
        (scan_image_fragments xml_content).length) ∧
    (∀ image_xml info, parse_single_image_xml image_xml = .ok info →
      (findSub ("INDEX=\"".toList) image_xml = none → info.index = 0) ∧
      (extract_tag_value image_xml ("DISPLAYNAME".toList) = none →
        info.name = "Image ".toList ++ (toString info.index).toList) ∧
      (extract_tag_value image_xml ("DISPLAYDESCRIPTION".toList) = none →
        info.description = "Unknown".toList) ∧
      ((extract_tag_value image_xml ("DIRCOUNT".toList)).bind (parseUnsigned (2 ^ 32)) = none →
        info.dir_count = 0) ∧
      ((extract_tag_value image_xml ("FILECOUNT".toList)).bind (parseUnsigned (2 ^ 32)) = none →
        info.file_count = 0) ∧
      ((extract_tag_value image_xml ("TOTALBYTES".toList)).bind (parseUnsigned (2 ^ 64)) = none →
        info.total_bytes = 0)) := by
  refine ⟨fun _ => rfl, ?_, ?_⟩
  · intro prev xml_content
    unfold parse_xml_images
    rw [parse_images_loop_eq_scan xml_content.length xml_content le_rfl []]
    simp only [List.nil_append]
    generalize scan_image_fragments xml_content = l
    induction l with
    | nil => rfl
    | cons f t iht =>
      cases hp : parse_single_image_xml f with
      | ok info =>
        rw [List.filterMap_cons, hp]
        show (info :: t.filterMap (fun frag => (parse_single_image_xml frag).toOption)).length =
          t.length + 1
        rw [List.length_cons, iht]
      | error e =>
        have htot : (parse_single_image_xml f).isOk = true := rfl
        rw [hp] at htot
        simp [Except.isOk, Except.toBool] at htot
  · intro image_xml info hok
    obtain ⟨hidx, hname, hdesc, hdir, hfile, htotb⟩ := parse_single_fields hok
    refine ⟨?_, ?_, ?_, ?_, ?_, ?_⟩
    · intro h
      rw [hidx]
      unfold parse_image_index
      rw [h]
    · intro h
      rw [hname, h, hidx]
      rfl
    · intro h
      rw [hdesc, h]
      rfl
    · intro h
      rw [hdir, h]
      rfl
    · intro h
      rw [hfile, h]
      rfl
    · intro h
      rw [htotb, h]
      rfl

/-- The fragment with every tag missing. -/
def fragEmptyImage : List Char := "<IMAGE></IMAGE>".toList

set_option maxRecDepth 100000 in
/-- Witness for C10: an empty fragment extracts with all defaults. -/
theorem fragment_extraction_total_witness :
    (imageOrDefault (parse_single_image_xml fragEmptyImage)).index = 0 ∧
    (imageOrDefault (parse_single_image_xml fragEmptyImage)).name = "Image 0".toList := by
  have h := fragment_extraction_total.2.2 fragEmptyImage
    (imageOrDefault (parse_single_image_xml fragEmptyImage)) (by decide)
  have hidx := h.1 (by decide)
  have hname := h.2.1 (by decide)
  exact ⟨hidx, by rw [hname, hidx]; decide⟩

/-- C4: UTF-16 XML decoding succeeds exactly when the buffer has at least
two bytes, starts with the BOM bytes 0xFF 0xFE, has an even number of
remaining bytes, and those bytes (as little-endian 16-bit units) are valid
UTF-16; the checks run in that order, the first violated one names the
error, and success yields the decoded text after the 2-byte BOM. -/
theorem utf16_decoder_spec (xml_buffer : List Nat) :
    ((decode_utf16_xml xml_buffer).isOk = true ↔
      (2 ≤ xml_buffer.length ∧ xml_buffer.getD 0 0 = 0xFF ∧ xml_buffer.getD 1 0 = 0xFE ∧
        (xml_buffer.drop 2).length % 2 = 0 ∧
        (utf16Decode? (leU16Pairs (xml_buffer.drop 2))).isSome = true)) ∧
    (xml_buffer.length < 2 → decode_utf16_xml xml_buffer = .error .xmlTooShort) ∧
    (2 ≤ xml_buffer.length →
      ¬(xml_buffer.getD 0 0 = 0xFF ∧ xml_buffer.getD 1 0 = 0xFE) →
      decode_utf16_xml xml_buffer = .error .invalidBom) ∧
    (2 ≤ xml_buffer.length → xml_buffer.getD 0 0 = 0xFF → xml_buffer.getD 1 0 = 0xFE →
      (xml_buffer.drop 2).length % 2 ≠ 0 →
      decode_utf16_xml xml_buffer = .error .oddUtf16Len) ∧
    (2 ≤ xml_buffer.length → xml_buffer.getD 0 0 = 0xFF → xml_buffer.getD 1 0 = 0xFE →
      (xml_buffer.drop 2).length % 2 = 0 →
      utf16Decode? (leU16Pairs (xml_buffer.drop 2)) = none →
      decode_utf16_xml xml_buffer = .error .utf16DecodeFailed) ∧
    (∀ s, 2 ≤ xml_buffer.length → xml_buffer.getD 0 0 = 0xFF → xml_buffer.getD 1 0 = 0xFE →
      (xml_buffer.drop 2).length % 2 = 0 →
      utf16Decode? (leU16Pairs (xml_buffer.drop 2)) = some s →
      decode_utf16_xml xml_buffer = .ok s) := by
  unfold decode_utf16_xml
  by_cases h1 : xml_buffer.length < 2
  · rw [if_pos h1]
    refine ⟨⟨fun hh => absurd hh (by decide), fun hh => ?_⟩, fun _ => rfl,
      fun hc => ?_, fun hc => ?_, fun hc => ?_, fun _ hc => ?_⟩ <;> omega
  · have h1' : 2 ≤ xml_buffer.length := by omega
    rw [if_neg h1]
    by_cases h2 : xml_buffer.getD 0 0 = 0xFF ∧ xml_buffer.getD 1 0 = 0xFE
    · rw [if_neg (by simpa using h2)]
      by_cases h3 : (xml_buffer.drop 2).length % 2 = 0
      · rw [if_neg (by simpa using h3)]
        cases hd : utf16Decode? (leU16Pairs (xml_buffer.drop 2)) with
        | none =>
          refine ⟨⟨fun hh => absurd hh (by decide), fun hh => ?_⟩, fun hc => ?_,
            fun _ hc => absurd h2 hc, fun _ _ _ hc => absurd h3 hc, fun _ _ _ _ _ => rfl,
            fun s _ _ _ _ hs => ?_⟩
          · exact absurd hh.2.2.2.2 (by decide)
          · omega
          · cases hs
        | some t =>
          refine ⟨⟨fun _ => ⟨h1', h2.1, h2.2, h3, rfl⟩, fun _ => rfl⟩,
            fun hc => ?_, fun _ hc => absurd h2 hc, fun _ _ _ hc => absurd h3 hc,
            fun _ _ _ _ hc => ?_, fun s _ _ _ _ hs => ?_⟩
          · omega
          · cases hc
          · injection hs with hts
            rw [hts]
      · rw [if_pos (by simpa using h3)]
        refine ⟨⟨fun hh => absurd hh (by decide), fun hh => absurd hh.2.2.2.1 h3⟩,
          fun hc => ?_, fun _ hc => absurd h2 hc, fun _ _ _ _ => rfl,
          fun _ _ _ hc => absurd hc h3, fun s _ _ _ hc => absurd hc h3⟩
        omega
    · rw [if_pos (by simpa using h2)]
      refine ⟨⟨fun hh => absurd hh (by decide), fun hh => absurd ⟨hh.2.1, hh.2.2.1⟩ h2⟩,
        fun hc => ?_, fun _ _ => rfl, fun _ hb1 hb2 _ => absurd ⟨hb1, hb2⟩ h2,
        fun _ hb1 hb2 _ _ => absurd ⟨hb1, hb2⟩ h2, fun s _ hb1 hb2 _ _ => absurd ⟨hb1, hb2⟩ h2⟩
      omega

/-- Witness for C4: a well-formed two-unit buffer decodes to its text. -/
theorem utf16_decoder_spec_witness :
    decode_utf16_xml [0xFF, 0xFE, 65, 0] = .ok ['A'] :=
  (utf16_decoder_spec [0xFF, 0xFE, 65, 0]).2.2.2.2.2 ['A']
    (by decide) (by decide) (by decide) (by decide) (by decide)

/-- C8: on a fresh session, decoding a fully-read 204-byte header buffer
fails (with a FormatError) exactly when its first eight bytes differ from
the magic `MSWIM\x00\x00\x00`; nothing else about the buffer matters at
this stage, and on failure no header is cached — the accessor still
returns nothing. -/
theorem read_header_validation (file : List Nat) (p : SessionState)
    (hnone : p.header = none) (hlen : file.length = 204) :
    ((read_header file p).1.isOk = true ↔ file.take 8 = wimMagic) ∧
    (file.take 8 ≠ wimMagic →
      read_header file p = (.error .badSignature, p) ∧
      WimError.badSignature.isFormatError = true ∧
      get_header ((read_header file p).2) = none) ∧
    (file.take 8 = wimMagic →
      read_header file p =
        (.ok (parse_header_buffer file), { p with header := some (parse_header_buffer file) })) := by
  have htake : file.take 204 = file := by
    rw [← hlen]
    exact List.take_length file
  have hsig : (parse_header_buffer file).signature = file.take 8 := by
    show (file.drop 0).take 8 = file.take 8
    rw [List.drop_zero]
  have hnotlt : ¬ file.length < 204 := by omega
  simp only [read_header, hnone]
  rw [if_neg hnotlt, htake, hsig]
  by_cases hm : file.take 8 = wimMagic
  · rw [if_pos hm]
    exact ⟨⟨fun _ => hm, fun _ => rfl⟩, fun hcont => absurd hm hcont, fun _ => rfl⟩
  · rw [if_neg hm]
    exact ⟨⟨fun hh => absurd hh (by simp [Except.isOk, Except.toBool]), fun hh => absurd hh hm⟩,
      fun _ => ⟨rfl, rfl, hnone⟩, fun hcont => absurd hcont hm⟩

def fileZeros : List Nat := List.replicate 204 0

def emptySession : SessionState := ⟨none, []⟩

set_option maxRecDepth 100000 in
/-- Witness for C8: an all-zero 204-byte buffer has a corrupted signature,
so decoding fails and the session stays headerless. -/
theorem read_header_validation_witness :
    read_header fileZeros emptySession = (.error .badSignature, emptySession) :=
  ((read_header_validation fileZeros emptySession rfl (by decide)).2.1 (by decide)).1

/-- C9: with the header already decoded and cached, a zero-size XML
resource descriptor makes the XML-read stage fail with a FormatError
before any resource read is issued; the session — its image list and its
cached header — is untouched. -/
theorem read_xml_zero_size (file : List Nat) (p : SessionState) (h : WimHeader)
    (hc : p.header = some h) (hz : h.xml_data_resource.size = 0) :
    read_xml_data file p = (.error .noXmlData, p, []) ∧
    WimError.noXmlData.isFormatError = true ∧
    get_images ((read_xml_data file p).2.1) = get_images p ∧
    get_header ((read_xml_data file p).2.1) = some h := by
  have hrh : read_header file p = (.ok h, p) := by
    unfold read_header
    rw [hc]
  have hmain : read_xml_data file p = (.error .noXmlData, p, []) := by
    simp [read_xml_data, hrh, hz]
  exact ⟨hmain, rfl, by rw [hmain], by rw [hmain]; exact hc⟩

/-- A decoded header whose XML resource descriptor is all-zero. -/
def hdrZeroXml : WimHeader :=
  ⟨wimMagic, 0, 0, 0, 0, List.replicate 16 0, 0, 0, 0,
    ⟨0, 0, 0, 0⟩, ⟨0, 0, 0, 0⟩, ⟨0, 0, 0, 0⟩, 0, ⟨0, 0, 0, 0⟩⟩

/-- Witness for C9: a session caching `hdrZeroXml` fails the XML read with
the FormatError, reads nothing, and keeps its state. -/
theorem read_xml_zero_size_witness :
    read_xml_data [] ⟨some hdrZeroXml, []⟩ = (.error .noXmlData, ⟨some hdrZeroXml, []⟩, []) :=
  (read_xml_zero_size [] ⟨some hdrZeroXml, []⟩ hdrZeroXml rfl rfl).1

attribute [ext] FileResourceEntry WimHeader

theorem bytes_encode_u16 {n : Nat} (h : n < 2 ^ 16) : bytesToNatLE (encode_u16 n) = n := by
  simp [encode_u16, bytesToNatLE]
  omega

theorem bytes_encode_u32 {n : Nat} (h : n < 2 ^ 32) : bytesToNatLE (encode_u32 n) = n := by
  simp [encode_u32, bytesToNatLE]
  omega

theorem bytes_encode_u64 {n : Nat} (h : n < 2 ^ 64) : bytesToNatLE (encode_u64 n) = n := by
  simp [encode_u64, bytesToNatLE]
  omega

theorem bytes_encode_size7 {n : Nat} (h : n < 2 ^ 56) :
    bytesToNatLE (encode_size7 n ++ [0]) = n := by
  simp [encode_size7, bytesToNatLE]
  omega

theorem exists_len8 (l : List Nat) (hl : l.length = 8) :
    ∃ a b c d e f g k, l = [a, b, c, d, e, f, g, k] := by
  rcases l with _ | ⟨a, _ | ⟨b, _ | ⟨c, _ | ⟨d, _ | ⟨e, _ | ⟨f, _ | ⟨g, _ | ⟨k, _ | ⟨x, t⟩⟩⟩⟩⟩⟩⟩⟩⟩ <;>
    simp_all

theorem exists_len16 (l : List Nat) (hl : l.length = 16) :
    ∃ a b c d e f g k m n o q r u v w,
      l = [a, b, c, d, e, f, g, k, m, n, o, q, r, u, v, w] := by
  rcases l with _ | ⟨a, _ | ⟨b, _ | ⟨c, _ | ⟨d, _ | ⟨e, _ | ⟨f, _ | ⟨g, _ | ⟨k, _ | ⟨m, _ |
    ⟨n, _ | ⟨o, _ | ⟨q, _ | ⟨r, _ | ⟨u, _ | ⟨v, _ | ⟨w, _ | ⟨x, t⟩⟩⟩⟩⟩⟩⟩⟩⟩⟩⟩⟩⟩⟩⟩⟩⟩ <;>
    simp_all

/-- C5: encoding a header record whose descriptor sizes fit in 7 bytes to
the 204-byte layout and decoding it back restores every field exactly
(the field ranges in `wellFormed` are those of the Rust types; the size
bound `2^56 - 1` is the 7-byte maximum). -/
theorem header_roundtrip (h : WimHeader) (hw : h.wellFormed) :
    parse_header_buffer (encode_header h) = h := by
  obtain ⟨sig, hsz, fv, ff, cs, guid, sn, ts, ic, otr, xdr, bmr, bii, ir⟩ := h
  obtain ⟨o1, o2, o3, o4⟩ := otr
  obtain ⟨x1, x2, x3, x4⟩ := xdr
  obtain ⟨b1, b2, b3, b4⟩ := bmr
  obtain ⟨i1, i2, i3, i4⟩ := ir
  simp only [WimHeader.wellFormed, FileResourceEntry.wellFormed] at hw
  obtain ⟨hsl, hsb, hh1, hh2, hh3, hh4, hgl, hgb, hh5, hh6, hh7, ⟨ho1, ho2, ho3, ho4⟩,
    ⟨hx1v, hx2v, hx3v, hx4v⟩, ⟨hb1v, hb2v, hb3v, hb4v⟩, hh8, ⟨hi1v, hi2v, hi3v, hi4v⟩⟩ := hw
  obtain ⟨s0, s1, s2, s3, s4, s5, s6, s7, rfl⟩ := exists_len8 sig hsl
  obtain ⟨g0, g1, g2, g3, g4, g5, g6, g7, g8, g9, g10, g11, g12, g13, g14, g15, rfl⟩ :=
    exists_len16 guid hgl
  refine WimHeader.ext ?_ ?_ ?_ ?_ ?_ ?_ ?_ ?_ ?_ ?_ ?_ ?_ ?_ ?_
  · rfl
  · exact bytes_encode_u32 hh1
  · exact bytes_encode_u32 hh2
  · exact bytes_encode_u32 hh3
  · exact bytes_encode_u32 hh4
  · rfl
  · exact bytes_encode_u16 hh5
  · exact bytes_encode_u16 hh6
  · exact bytes_encode_u32 hh7
  · refine FileResourceEntry.ext ?_ ?_ ?_ ?_
    · exact bytes_encode_size7 ho1
    · exact Nat.mod_eq_of_lt ho2
    · exact bytes_encode_u64 ho3
    · exact bytes_encode_u64 ho4
  · refine FileResourceEntry.ext ?_ ?_ ?_ ?_
    · exact bytes_encode_size7 hx1v
    · exact Nat.mod_eq_of_lt hx2v
    · exact bytes_encode_u64 hx3v
    · exact bytes_encode_u64 hx4v
  · refine FileResourceEntry.ext ?_ ?_ ?_ ?_
    · exact bytes_encode_size7 hb1v
    · exact Nat.mod_eq_of_lt hb2v
    · exact bytes_encode_u64 hb3v
    · exact bytes_encode_u64 hb4v
  · exact bytes_encode_u32 hh8
  · refine FileResourceEntry.ext ?_ ?_ ?_ ?_
    · exact bytes_encode_size7 hi1v
    · exact Nat.mod_eq_of_lt hi2v
    · exact bytes_encode_u64 hi3v
    · exact bytes_encode_u64 hi4v

/-- A header carrying the maximal 7-byte descriptor size `2^56 - 1`. -/
def hdrMax : WimHeader :=
  ⟨wimMagic, 204, 68864, 2, 0, List.replicate 16 7, 1, 1, 1,
    ⟨2 ^ 56 - 1, 4, 2 ^ 64 - 1, 2 ^ 64 - 1⟩, ⟨2 ^ 56 - 1, 2, 208, 999⟩,
    ⟨0, 0, 0, 0⟩, 1, ⟨2 ^ 56 - 1, 0, 5, 6⟩⟩

set_option maxRecDepth 100000 in
/-- Witness for C5: the header with descriptor size `2^56 - 1` round-trips
through the 204-byte layout unchanged. -/
theorem header_roundtrip_witness :
    hdrMax.wellFormed ∧ parse_header_buffer (encode_header hdrMax) = hdrMax :=
  ⟨by decide, header_roundtrip hdrMax (by decide)⟩

/-- Evidence that label `l` can legitimately appear in the editions list:
it is one of the four canonical labels and some image's lowercased name
contains the matching substring. -/
def edition_evidence (images : List ImageInfo) (l : List Char) : Prop :=
  (l = "Pro".toList ∧
    ∃ img ∈ images, containsStr (toLowerStr img.name) ("pro".toList) = true) ∨
  (l = "Home".toList ∧
    ∃ img ∈ images, containsStr (toLowerStr img.name) ("home".toList) = true) ∨
  (l = "Enterprise".toList ∧
    ∃ img ∈ images, containsStr (toLowerStr img.name) ("enterprise".toList) = true) ∨
  (l = "Education".toList ∧
    ∃ img ∈ images, containsStr (toLowerStr img.name) ("education".toList) = true)

theorem edition_evidence_mono {rest : List ImageInfo} {img : ImageInfo} {l : List Char}
    (h : edition_evidence rest l) : edition_evidence (img :: rest) l := by
  unfold edition_evidence at *
  rcases h with ⟨hl, im, him, hcon⟩ | ⟨hl, im, him, hcon⟩ | ⟨hl, im, him, hcon⟩ |
    ⟨hl, im, him, hcon⟩
  · exact Or.inl ⟨hl, im, List.mem_cons_of_mem _ him, hcon⟩
  · exact Or.inr (Or.inl ⟨hl, im, List.mem_cons_of_mem _ him, hcon⟩)
  · exact Or.inr (Or.inr (Or.inl ⟨hl, im, List.mem_cons_of_mem _ him, hcon⟩))
  · exact Or.inr (Or.inr (Or.inr ⟨hl, im, List.mem_cons_of_mem _ him, hcon⟩))

theorem edition_step_preserves_nodup (acc : List (List Char)) (img : ImageInfo)
    (h : acc.Nodup) : (edition_step acc img).Nodup := by
  unfold edition_step
  dsimp only
  split_ifs with h1 h2 h3 h4
  · simp only [List.nodup_append, List.nodup_singleton, List.disjoint_singleton, true_and,
      and_true]
    exact ⟨h, h1.2⟩
  · simp only [List.nodup_append, List.nodup_singleton, List.disjoint_singleton, true_and,
      and_true]
    exact ⟨h, h2.2⟩
  · simp only [List.nodup_append, List.nodup_singleton, List.disjoint_singleton, true_and,
      and_true]
    exact ⟨h, h3.2⟩
  · simp only [List.nodup_append, List.nodup_singleton, List.disjoint_singleton, true_and,
      and_true]
    exact ⟨h, h4.2⟩
  · exact h

theorem foldl_edition_nodup : ∀ (images : List ImageInfo) (acc : List (List Char)),
    acc.Nodup → (images.foldl edition_step acc).Nodup := by
  intro images
  induction images with
  | nil => exact fun _ h => h
  | cons img rest ih =>
    intro acc h
    rw [List.foldl_cons]
    exact ih _ (edition_step_preserves_nodup acc img h)

theorem foldl_edition_sound : ∀ (images : List ImageInfo) (acc : List (List Char))
    (l : List Char), l ∈ images.foldl edition_step acc → l ∈ acc ∨ edition_evidence images l := by
  intro images
  induction images with
  | nil => exact fun _ l h => Or.inl h
  | cons img rest ih =>
    intro acc l h
    rw [List.foldl_cons] at h
    rcases ih _ l h with hacc | hev
    · unfold edition_step at hacc
      dsimp only at hacc
      split_ifs at hacc with h1 h2 h3 h4
      · rcases List.mem_append.mp hacc with h' | h'
        · exact Or.inl h'
        · exact Or.inr (Or.inl
            ⟨List.mem_singleton.mp h', img, List.mem_cons_self img rest, h1.1⟩)
      · rcases List.mem_append.mp hacc with h' | h'
        · exact Or.inl h'
        · exact Or.inr (Or.inr (Or.inl
            ⟨List.mem_singleton.mp h', img, List.mem_cons_self img rest, h2.1⟩))
      · rcases List.mem_append.mp hacc with h' | h'
        · exact Or.inl h'
        · exact Or.inr (Or.inr (Or.inr (Or.inl
            ⟨List.mem_singleton.mp h', img, List.mem_cons_self img rest, h3.1⟩)))
      · rcases List.mem_append.mp hacc with h' | h'
        · exact Or.inl h'
        · exact Or.inr (Or.inr (Or.inr (Or.inr
            ⟨List.mem_singleton.mp h', img, List.mem_cons_self img rest, h4.1⟩)))
      · exact Or.inl hacc
    · exact Or.inr (edition_evidence_mono hev)

/-- C6 (amended): whenever a summary is produced, its editions list is the
`if`/`else if` collection — each image contributes at most the first label
in the order Pro, Home, Enterprise, Education whose substring its
lowercased name contains and which is not yet collected — so every listed
label appears at most once and is backed by some image whose name contains
its substring.  (The converse of the original claim fails: a substring may
occur in a name yet its label be skipped; see the counterexample.) -/
theorem windows_info_editions :
    ∀ images ordv orda w, get_windows_info images ordv orda = some w →
      w.editions = collect_editions images ∧
      w.editions.Nodup ∧
      ∀ l ∈ w.editions, edition_evidence images l := by
  intro images ordv orda w hw
  unfold get_windows_info at hw
  cases hv : get_primary_version images ordv with
  | none =>
    rw [hv] at hw
    dsimp only at hw
    cases hw
  | some pv =>
    rw [hv] at hw
    cases ha : get_primary_architecture images orda with
    | none =>
      rw [ha] at hw
      dsimp only at hw
      cases hw
    | some pa =>
      rw [ha] at hw
      dsimp only at hw
      by_cases hwin : containsStr (toLowerStr pv) ("windows".toList) = true
      · rw [if_neg (not_not_intro hwin)] at hw
        injection hw with hww
        subst hww
        refine ⟨rfl, foldl_edition_nodup images [] List.nodup_nil, ?_⟩
        intro l hl
        have hs := foldl_edition_sound images [] l hl
        rcases hs with hnil | hev
        · cases hnil
        · exact hev
      · rw [if_pos hwin] at hw
        cases hw

/-- One image whose name carries both the `pro` and the `education`
substrings, extracted through the fragment parser. -/
def imgEducationPro : ImageInfo :=
  imageOrDefault (parse_single_image_xml
    ("<IMAGE INDEX=\"1\"><DISPLAYNAME>Windows 11 Pro Education x64</DISPLAYNAME></IMAGE>".toList))

def imgsC6 : List ImageInfo := [imgEducationPro]

set_option maxRecDepth 1000000 in
/-- Counterexample to C6 as stated: the single image's name contains
"education", yet the produced summary's editions list is just `["Pro"]` —
the `else if` chain stops at the first matching label per image.  (The two
order arguments are the only iteration orders the singleton counting maps
admit.) -/
theorem windows_info_misses_education :
    ((get_windows_info imgsC6 [("Windows 11".toList)] [("x64".toList)]).map
      (fun w => w.editions)) = some [("Pro".toList)] ∧
    (∃ img ∈ imgsC6, containsStr (toLowerStr img.name) ("education".toList) = true) ∧
    ("Education".toList) ∉ [("Pro".toList)] ∧
    [("Windows 11".toList)].Perm (version_keys imgsC6) ∧
    [("x64".toList)].Perm (arch_keys imgsC6) := by
  refine ⟨by decide, by decide, by decide, by decide, by decide⟩

/-- The summary value produced over `imgsC6` (default-unwrapped). -/
def winInfoC6 : WindowsInfo :=
  (get_windows_info imgsC6 [("Windows 11".toList)] [("x64".toList)]).getD
    ⟨[], [], [], 0, 0⟩

set_option maxRecDepth 1000000 in
/-- Witness for the amended C6 on the concrete summary over `imgsC6`. -/
theorem windows_info_editions_witness :
    winInfoC6.editions = collect_editions imgsC6 ∧ winInfoC6.editions.Nodup := by
  have h := windows_info_editions imgsC6 [("Windows 11".toList)] [("x64".toList)]
    winInfoC6 (by decide)
  exact ⟨h.1, h.2.1⟩

/-- Two images whose versions are distinct and tied at one occurrence
each. -/
def imgsTie : List ImageInfo :=
  [⟨1, "a".toList, [], 0, 0, 0, none, none, some ("Windows 10".toList), some ("x64".toList)⟩,
   ⟨2, "b".toList, [], 0, 0, 0, none, none, some ("Windows 11".toList), some ("x64".toList)⟩]

/-- C7 evaluation: on a tied image list, `get_primary_version` returns
whichever equally-frequent label the counting map's iteration order yields
last; both orders below are permutations of the map's key set, i.e. both
are possible `HashMap` iteration orders, and they produce different
primary versions.  The result is therefore not a function of the image
list alone, against the claim. -/
theorem primary_version_tie_order_dependent :
    get_primary_version imgsTie [("Windows 10".toList), ("Windows 11".toList)] =
      some ("Windows 11".toList) ∧
    get_primary_version imgsTie [("Windows 11".toList), ("Windows 10".toList)] =
      some ("Windows 10".toList) ∧
    ("Windows 11".toList) ≠ ("Windows 10".toList) ∧
    [("Windows 10".toList), ("Windows 11".toList)].Perm (version_keys imgsTie) ∧
    [("Windows 11".toList), ("Windows 10".toList)].Perm (version_keys imgsTie) := by
  refine ⟨by decide, by decide, by decide, by decide, by decide⟩

end Wim
